import Mathlib

/-!
Shallow embedding of the legal-source discovery and retrieval core
(`backend/rag/vector_store.py` and `backend/crawler/legal_crawler.py`).

Python strings are modelled as `List Char` (`Str`). Python floats
(similarity scores) are modelled as rationals. External library calls
(BeautifulSoup HTML cleaning, the `sentence_transformers` embedding
model, Pinecone, `md5`) are abstracted as function parameters of the
embedding bundled in `Env`; everything written in the repository
itself is translated directly from the source.
-/

namespace LegalAssistant

/-- Python `str` values, modelled as lists of characters. -/
abbrev Str := List Char

/-- Shorthand to build a `Str` from a Lean string literal. -/
def lit (s : String) : Str := s.toList

/-- Python `str.lower()` (ASCII). -/
def pyLower (s : Str) : Str := s.map Char.toLower

/-- Python whitespace strip from the left. -/
def pyLStrip (s : Str) : Str := s.dropWhile Char.isWhitespace

/-- Python `str.strip()`: drop whitespace from both ends. -/
def pyStrip (s : Str) : Str := (pyLStrip ((pyLStrip s).reverse)).reverse

/-- Python `str.split()` with no argument: split on whitespace runs,
dropping empty pieces. -/
def pySplitWs (s : Str) : List Str :=
  (s.splitOnP Char.isWhitespace).filter (fun w => w ≠ [])

/-- Python `sep.join(parts)`. -/
def pyJoin (sep : Str) (parts : List Str) : Str := List.intercalate sep parts

/-- Helper for `re.sub(r'\s+', ' ', text)`: the Boolean records whether
the previous character was whitespace (so that a run collapses to one
space). -/
def collapseWsAux : Bool → Str → Str
  | _, [] => []
  | prevWs, c :: rest =>
    if c.isWhitespace then
      if prevWs then collapseWsAux true rest
      else ' ' :: collapseWsAux true rest
    else c :: collapseWsAux false rest

/-- `re.sub(r'\s+', ' ', text)`. -/
def collapseWs (s : Str) : Str := collapseWsAux false s

/-- A character kept by `re.sub(r'[^\w\s.,!?;:()\-]', '', text)`:
word characters, whitespace, and the punctuation safelist. -/
def isSafeChar (c : Char) : Bool :=
  c.isAlphanum || c = '_' || c.isWhitespace ||
    c = '.' || c = ',' || c = '!' || c = '?' || c = ';' || c = ':' ||
    c = '(' || c = ')' || c = '-'

/-- `DocumentChunker.clean_text`: collapse whitespace runs, drop
characters outside the safelist, then strip. -/
def cleanText (text : Str) : Str :=
  pyStrip ((collapseWs text).filter isSafeChar)

/-- A sentence separator of `re.split(r'[.!?]+', text)`. -/
def isSentenceSep (c : Char) : Bool := c = '.' || c = '!' || c = '?'

/-- `DocumentChunker.split_into_sentences`: split on `.`, `!`, `?` and
keep the stripped non-empty pieces.  (Splitting at every separator
character instead of at separator runs produces extra empty pieces,
which the non-empty filter removes, so the composite is extensionally
the Python function.) -/
def splitIntoSentences (text : Str) : List Str :=
  ((text.splitOnP isSentenceSep).map pyStrip).filter (fun s => s ≠ [])

/-- `DocumentChunker.get_overlap_text`: the last `overlap_size`
whitespace-split words of `text`, or all of `text` if it has no more
than `overlap_size` words. -/
def getOverlapText (text : Str) (overlapSize : Nat) : Str :=
  let words := pySplitWs text
  if words.length ≤ overlapSize then text
  else pyJoin (lit " ") (words.drop (words.length - overlapSize))

/-- `DocumentChunker.generate_chunk_id`, with the md5 hex digest prefix
abstracted as the function `h`. -/
def generateChunkId (h : Str → Str) (text : Str) (chunkIndex : Nat) : Str :=
  lit "chunk_" ++ h text ++ lit "_" ++ (toString chunkIndex).toList

/-- `DocumentChunk` (`vector_store.py`).  The open metadata mapping,
`source_url`, `page_number` and the embedding are not used by any
claim about the chunker and are omitted; `chunk_index` is `Option`
because the dataclass default is `None`. -/
structure DocumentChunk where
  id : Str
  content : Str
  chunk_index : Option Nat
  deriving Repr, DecidableEq

/-- Loop body of `DocumentChunker.chunk_text`: iterate over the
sentences with the running buffer `cur` and running `chunk_index`;
afterwards flush a final non-empty buffer. -/
def chunkLoop (chunkSize overlap : Nat) (h : Str → Str) (text : Str) :
    List Str → Str → Nat → List DocumentChunk
  | [], cur, idx =>
    if pyStrip cur ≠ [] then
      [⟨generateChunkId h text idx, pyStrip cur, some idx⟩]
    else []
  | s :: rest, cur, idx =>
    if chunkSize < cur.length + s.length ∧ cur ≠ [] then
      ⟨generateChunkId h text idx, pyStrip cur, some idx⟩ ::
        chunkLoop chunkSize overlap h text rest
          (getOverlapText cur overlap ++ lit " " ++ s) (idx + 1)
    else
      chunkLoop chunkSize overlap h text rest
        (if cur = [] then s else cur ++ lit " " ++ s) idx

/-- `DocumentChunker.chunk_text`: clean the text, split it into
sentence units, and greedily accumulate them into overlapping chunks. -/
def chunkText (chunkSize overlap : Nat) (h : Str → Str) (text : Str) :
    List DocumentChunk :=
  let t := cleanText text
  chunkLoop chunkSize overlap h t (splitIntoSentences t) [] 0

/-- A chunk instrumented with the ghost field `extra`: how many
sentence units were appended to the chunk's buffer after the buffer
was (re)seeded (by the first unit, or by the overlap seed together
with the unit that triggered the previous chunk's closure). -/
structure GChunk where
  chunk : DocumentChunk
  extra : Nat
  deriving Repr, DecidableEq

/-- `chunkLoop` instrumented with the append counter `e`; the chunk
components are produced exactly as in `chunkLoop`. -/
def chunkLoopG (chunkSize overlap : Nat) (h : Str → Str) (text : Str) :
    List Str → Str → Nat → Nat → List GChunk
  | [], cur, idx, e =>
    if pyStrip cur ≠ [] then
      [⟨⟨generateChunkId h text idx, pyStrip cur, some idx⟩, e⟩]
    else []
  | s :: rest, cur, idx, e =>
    if chunkSize < cur.length + s.length ∧ cur ≠ [] then
      ⟨⟨generateChunkId h text idx, pyStrip cur, some idx⟩, e⟩ ::
        chunkLoopG chunkSize overlap h text rest
          (getOverlapText cur overlap ++ lit " " ++ s) (idx + 1) 0
    else if cur = [] then
      chunkLoopG chunkSize overlap h text rest s idx 0
    else
      chunkLoopG chunkSize overlap h text rest (cur ++ lit " " ++ s) idx (e + 1)

/-- `chunkText` instrumented with the ghost append counter. -/
def chunkTextG (chunkSize overlap : Nat) (h : Str → Str) (text : Str) :
    List GChunk :=
  let t := cleanText text
  chunkLoopG chunkSize overlap h t (splitIntoSentences t) [] 0 0

lemma pyStrip_length_le (s : Str) : (pyStrip s).length ≤ s.length := by
  unfold pyStrip pyLStrip
  calc ((s.dropWhile Char.isWhitespace).reverse.dropWhile
          Char.isWhitespace).reverse.length
      = ((s.dropWhile Char.isWhitespace).reverse.dropWhile
          Char.isWhitespace).length := List.length_reverse _
    _ ≤ (s.dropWhile Char.isWhitespace).reverse.length :=
        (List.dropWhile_sublist _).length_le
    _ = (s.dropWhile Char.isWhitespace).length := List.length_reverse _
    _ ≤ s.length := (List.dropWhile_sublist _).length_le

/-- Erasing the ghost counter recovers the plain chunker loop. -/
lemma chunkLoop_eq_mapG (chunkSize overlap : Nat) (h : Str → Str)
    (text : Str) (sents : List Str) :
    ∀ (cur : Str) (idx e : Nat),
      chunkLoop chunkSize overlap h text sents cur idx
        = (chunkLoopG chunkSize overlap h text sents cur idx e).map
            (fun g => g.chunk) := by
  induction sents with
  | nil =>
    intro cur idx e
    simp only [chunkLoop, chunkLoopG]
    split <;> simp
  | cons s rest ih =>
    intro cur idx e
    simp only [chunkLoop, chunkLoopG]
    by_cases hc : chunkSize < cur.length + s.length ∧ cur ≠ []
    · simp only [if_pos hc, List.map_cons]
      rw [ih _ (idx + 1) 0]
    · simp only [if_neg hc]
      by_cases hcur : cur = []
      · simp only [if_pos hcur]
        exact ih _ idx 0
      · simp only [if_neg hcur]
        exact ih _ idx (e + 1)

/-- Loop invariant for the amended length bound: whenever the buffer
has received at least one appended unit its length is at most
`chunkSize + 1`, and this bound is inherited by every emitted chunk
with `extra ≥ 1`. -/
lemma chunkLoopG_bound (chunkSize overlap : Nat) (h : Str → Str)
    (text : Str) (sents : List Str) :
    ∀ (cur : Str) (idx e : Nat), (1 ≤ e → cur.length ≤ chunkSize + 1) →
      ∀ g ∈ chunkLoopG chunkSize overlap h text sents cur idx e,
        1 ≤ g.extra → g.chunk.content.length ≤ chunkSize + 1 := by
  induction sents with
  | nil =>
    intro cur idx e hinv g hg hge
    simp only [chunkLoopG] at hg
    split at hg
    · simp only [List.mem_singleton] at hg
      subst hg
      exact le_trans (pyStrip_length_le cur) (hinv hge)
    · simp at hg
  | cons s rest ih =>
    intro cur idx e hinv g hg hge
    simp only [chunkLoopG] at hg
    by_cases hc : chunkSize < cur.length + s.length ∧ cur ≠ []
    · rw [if_pos hc] at hg
      rcases List.mem_cons.mp hg with hhead | htail
      · subst hhead
        exact le_trans (pyStrip_length_le cur) (hinv hge)
      · exact ih _ _ _ (fun h1 => absurd h1 (by omega)) g htail hge
    · rw [if_neg hc] at hg
      by_cases hcur : cur = []
      · rw [if_pos hcur] at hg
        exact ih _ _ _ (fun h1 => absurd h1 (by omega)) g hg hge
      · rw [if_neg hcur] at hg
        refine ih _ _ _ (fun _ => ?_) g hg hge
        have hlen : cur.length + s.length ≤ chunkSize := by
          rcases not_and_or.mp hc with h1 | h2
          · omega
          · exact absurd hcur h2
        simp only [List.length_append, lit, String.toList, List.length_cons,
          List.length_nil]
        omega

/-- The chunk indices produced by the loop starting at `idx` are
`idx, idx+1, ...`. -/
lemma chunkLoop_map_index (chunkSize overlap : Nat) (h : Str → Str)
    (text : Str) (sents : List Str) :
    ∀ (cur : Str) (idx : Nat),
      (chunkLoop chunkSize overlap h text sents cur idx).map
          (fun c => c.chunk_index)
        = (List.range' idx
            (chunkLoop chunkSize overlap h text sents cur idx).length).map
            some := by
  induction sents with
  | nil =>
    intro cur idx
    simp only [chunkLoop]
    split <;> simp
  | cons s rest ih =>
    intro cur idx
    simp only [chunkLoop]
    by_cases hc : chunkSize < cur.length + s.length ∧ cur ≠ []
    · simp only [if_pos hc, List.map_cons, List.length_cons, ih,
        List.range'_succ, List.map]
    · simp only [if_neg hc, ih]

/-- A placeholder for the abstracted md5 digest used when the chunker
is evaluated at concrete inputs. -/
def h0 : Str → Str := fun _ => []

/-- C3: for every input text and fixed `(chunk_size, overlap)`
configuration (and any digest function), two calls of
`DocumentChunker.chunk_text` on the same input yield identical chunk
sequences — identical contents and ids (the embedded function is pure,
so this is definitional) — and the `chunk_index` values of the result
are contiguous starting at 0. -/
theorem chunkText_deterministic_and_contiguous (chunkSize overlap : Nat)
    (h : Str → Str) (text : Str) :
    chunkText chunkSize overlap h text = chunkText chunkSize overlap h text ∧
    (chunkText chunkSize overlap h text).map (fun c => c.chunk_index)
      = (List.range (chunkText chunkSize overlap h text).length).map some := by
  refine ⟨rfl, ?_⟩
  unfold chunkText
  rw [List.range_eq_range']
  exact chunkLoop_map_index chunkSize overlap h (cleanText text)
    (splitIntoSentences (cleanText text)) [] 0

/-- C4 (counterexample): with `chunk_size = 10`, `overlap = 50` and
input `"aaaa. bbbbbb. c."`, the first chunk is `"aaaa bbbbbb"` (11
characters, exceeding `chunk_size`) yet is not a single sentence unit
of the cleaned text, refuting the claim that only single oversized
units may exceed `chunk_size`. -/
theorem chunkText_length_claim_false :
    ¬ (∀ c ∈ chunkText 10 50 h0 (lit "aaaa. bbbbbb. c."),
        c.content.length ≤ 10 ∨
          c.content ∈ splitIntoSentences (cleanText (lit "aaaa. bbbbbb. c."))) := by
  decide

/-- C4 (amended): erasing the ghost counter from the instrumented
chunker recovers `chunk_text`, and every chunk to which at least one
sentence unit was appended after its buffer was seeded has content
length at most `chunk_size + 1` (the joining space accounts for the
`+ 1`).  Chunks consisting only of their initial buffer — a single
unit, or the overlap seed joined with the unit that closed the
previous chunk — may be longer. -/
theorem chunkText_length_bound_amended (chunkSize overlap : Nat)
    (h : Str → Str) (text : Str) :
    chunkText chunkSize overlap h text
      = (chunkTextG chunkSize overlap h text).map (fun g => g.chunk) ∧
    ∀ g ∈ chunkTextG chunkSize overlap h text,
      1 ≤ g.extra → g.chunk.content.length ≤ chunkSize + 1 := by
  constructor
  · unfold chunkText chunkTextG
    exact chunkLoop_eq_mapG chunkSize overlap h (cleanText text)
      (splitIntoSentences (cleanText text)) [] 0 0
  · exact chunkLoopG_bound chunkSize overlap h (cleanText text)
      (splitIntoSentences (cleanText text)) [] 0 0 (by omega)

/-- Witness for the amended C4 theorem at a concrete input: on
`"ab. cd."` with the default-style configuration the single produced
chunk has one appended unit and length within the bound. -/
theorem chunkText_length_bound_amended_witness :
    (⟨⟨lit "chunk__0", lit "ab cd", some 0⟩, 1⟩ : GChunk).chunk.content.length
      ≤ 512 + 1 :=
  (chunkText_length_bound_amended 512 50 h0 (lit "ab. cd.")).2
    ⟨⟨lit "chunk__0", lit "ab cd", some 0⟩, 1⟩ (by decide) (by decide)

/-- C9: if the cleaned form of the input has no sentence unit with
non-whitespace content, `chunk_text` returns no chunks. -/
theorem chunkText_empty_of_no_units (chunkSize overlap : Nat)
    (h : Str → Str) (text : Str)
    (hs : splitIntoSentences (cleanText text) = []) :
    chunkText chunkSize overlap h text = [] := by
  show chunkLoop chunkSize overlap h (cleanText text)
    (splitIntoSentences (cleanText text)) [] 0 = []
  rw [hs]
  simp [chunkLoop, pyStrip, pyLStrip]

/-- Witness for C9 at the concrete input `" .!? "` (whitespace and
sentence punctuation only). -/
theorem chunkText_empty_of_no_units_witness :
    chunkText 512 50 h0 (lit " .!? ") = [] :=
  chunkText_empty_of_no_units 512 50 h0 (lit " .!? ") (by decide)

/-!  Retrieval: `VectorStore.search` and
`RAGPipeline.retrieve_relevant_chunks`.  Pinecone's `index.query` is
external; its response is abstracted as a list of ms, from which
`search` builds `SearchResult`s exactly as the source does.  Python
floats (cosine scores) are modelled as rationals. -/

/-- A match of the Pinecone query response: its id, the metadata
fields `search` reads back out of it, and its similarity score. -/
structure PineconeMatch where
  id : Str
  content : Str
  source_url : Option Str
  page_number : Option Nat
  chunk_index : Option Nat
  score : ℚ
  deriving Repr, DecidableEq

/-- A chunk as rebuilt by `VectorStore.search` from a match. -/
structure ResultChunk where
  id : Str
  content : Str
  source_url : Option Str
  page_number : Option Nat
  chunk_index : Option Nat
  deriving Repr, DecidableEq

/-- `SearchResult` (`vector_store.py`): chunk, similarity score, and
1-based rank. -/
structure SearchResult where
  chunk : ResultChunk
  similarity_score : ℚ
  rank : Nat
  deriving Repr, DecidableEq

/-- Body of the `for i, match in enumerate(search_response.ms)`
loop of `VectorStore.search`: each match becomes a `SearchResult` with
`rank = i + 1`. -/
def searchAux : Nat → List PineconeMatch → List SearchResult
  | _, [] => []
  | i, m :: rest =>
    ⟨⟨m.id, m.content, m.source_url, m.page_number, m.chunk_index⟩,
      m.score, i + 1⟩ :: searchAux (i + 1) rest

/-- `VectorStore.search`, given the ms the external index returned
for the query (embedding generation and the Pinecone call itself are
external). -/
def search (ms : List PineconeMatch) : List SearchResult :=
  searchAux 0 ms

/-- `min_score` of `RAGPipeline.retrieve_relevant_chunks` (the Python
float literal `0.7`, modelled as the exact rational 7/10). -/
def minScore : ℚ := mkRat 7 10

/-- `RAGPipeline.retrieve_relevant_chunks`, given the ms the
vector store returned for the query and filter: keep exactly the
results with `similarity_score >= min_score`. -/
def retrieveRelevantChunks (ms : List PineconeMatch) :
    List SearchResult :=
  (search ms).filter (fun r => decide (minScore ≤ r.similarity_score))

/-- C1: every `SearchResult` returned by
`retrieve_relevant_chunks` — for any query and filter, i.e. for any
match list the index may return — has `similarity_score ≥ 0.70`. -/
theorem retrieve_min_score (ms : List PineconeMatch)
    (r : SearchResult) (hr : r ∈ retrieveRelevantChunks ms) :
    minScore ≤ r.similarity_score := by
  have := (List.mem_filter.mp hr).2
  exact of_decide_eq_true this

/-- Witness for C1 at a concrete one-match response with score 0.8. -/
theorem retrieve_min_score_witness :
    minScore ≤ (⟨⟨[], [], none, none, none⟩, mkRat 8 10, 1⟩
        : SearchResult).similarity_score :=
  retrieve_min_score [⟨[], [], none, none, none, mkRat 8 10⟩]
    ⟨⟨[], [], none, none, none⟩, mkRat 8 10, 1⟩ (by decide)

/-- Every rank produced by `searchAux i` exceeds `i`. -/
lemma searchAux_rank_lt (ms : List PineconeMatch) :
    ∀ (i : Nat) (r : SearchResult), r ∈ searchAux i ms → i < r.rank := by
  induction ms with
  | nil => intro i r hr; simp [searchAux] at hr
  | cons m rest ih =>
    intro i r hr
    rcases List.mem_cons.mp hr with hhead | htail
    · subst hhead; exact Nat.lt_succ_self i
    · have := ih (i + 1) r htail; omega

/-- The ranks produced by `searchAux` are strictly increasing. -/
lemma searchAux_pairwise (ms : List PineconeMatch) :
    ∀ i : Nat, (searchAux i ms).Pairwise (fun a b => a.rank < b.rank) := by
  induction ms with
  | nil => intro i; simp [searchAux]
  | cons m rest ih =>
    intro i
    refine List.pairwise_cons.mpr ⟨?_, ih (i + 1)⟩
    intro r hr
    exact searchAux_rank_lt rest (i + 1) r hr

/-- C10: the list returned by `retrieve_relevant_chunks` is an
order-preserving subsequence of the list returned by
`VectorStore.search` (elements — including their `rank` fields — are
unchanged; the 0.70 cutoff only removes results), and the surviving
ranks are strictly increasing. -/
theorem retrieve_sublist_of_search (ms : List PineconeMatch) :
    (retrieveRelevantChunks ms).Sublist (search ms) ∧
    (retrieveRelevantChunks ms).Pairwise (fun a b => a.rank < b.rank) := by
  constructor
  · exact List.filter_sublist _
  · exact (searchAux_pairwise ms 0).sublist (List.filter_sublist _)

/-!  Crawler: `backend/crawler/legal_crawler.py`.  BeautifulSoup
operations (`clean_content`, title extraction, `<a href>` harvesting)
and the md5 digest are external and abstracted as fields of `CrawlEnv`;
all decision logic of the crawler itself is translated from the
source. -/

/-- Python `sub in s` (substring containment). -/
def strHas (s sub : Str) : Bool := decide (sub <:+: s)

/-- The tail of `url` after the first `"://"`, if any. -/
def afterSchemeSep : Str → Option Str
  | [] => none
  | ':' :: '/' :: '/' :: rest => some rest
  | _ :: rest => afterSchemeSep rest

/-- `urlparse(url).netloc` for URLs written with a `scheme://`: the
characters after `"://"` up to the first `/`, `?` or `#`.  A URL with
no `"://"` has an empty netloc, as in `urllib`. -/
def netloc (url : Str) : Str :=
  match afterSchemeSep url with
  | some rest => rest.takeWhile (fun c => !(c = '/' || c = '?' || c = '#'))
  | none => []

/-- `urlparse(url).path` for the same URL shapes. -/
def pathOf (url : Str) : Str :=
  match afterSchemeSep url with
  | some rest =>
    (rest.dropWhile (fun c => !(c = '/' || c = '?' || c = '#'))).takeWhile
      (fun c => !(c = '?' || c = '#'))
  | none => url.takeWhile (fun c => !(c = '?' || c = '#'))

/-- Python `str.title()` (ASCII): a letter is uppercased when the
previous character is not a letter, lowercased otherwise. -/
def pyTitleAux : Bool → Str → Str
  | _, [] => []
  | prevAlpha, c :: rest =>
    if c.isAlpha then
      (if prevAlpha then c.toLower else c.toUpper) :: pyTitleAux true rest
    else c :: pyTitleAux false rest

/-- Python `str.title()`. -/
def pyTitle (s : Str) : Str := pyTitleAux false s

/-- `LegalCrawler.legal_domains['government']`: each regex
`r'.*\.X$'` is a hostname-suffix test. -/
def govPatterns : List Str :=
  [lit ".gov", lit ".ca.gov", lit ".state.us", lit ".courts.gov",
    lit ".ftb.ca.gov", lit ".sos.ca.gov"]

/-- `LegalCrawler.legal_domains['court']`. -/
def courtPatterns : List Str :=
  [lit ".courts.gov", lit ".court.gov", lit ".uscourts.gov",
    lit ".ca.courts.gov"]

/-- `LegalCrawler.legal_domains['legal_portal']`. -/
def portalPatterns : List Str :=
  [lit ".justia.com", lit ".findlaw.com", lit ".law.cornell.edu",
    lit ".nolo.com"]

/-- `LegalCrawler.is_legal_domain`: first category (in insertion order
government, court, legal_portal) one of whose suffix patterns matches
the lowercased hostname. -/
def isLegalDomain (url : Str) : Option Str :=
  let domain := pyLower (netloc url)
  if govPatterns.any (fun p => p.isSuffixOf domain) then
    some (lit "government")
  else if courtPatterns.any (fun p => p.isSuffixOf domain) then
    some (lit "court")
  else if portalPatterns.any (fun p => p.isSuffixOf domain) then
    some (lit "legal_portal")
  else none

/-- `LegalCrawler.legal_keywords`. -/
def legalKeywords : List Str :=
  [lit "incorporation", lit "llc", lit "corporation", lit "partnership",
    lit "business license", lit "filing", lit "registration",
    lit "compliance", lit "regulation", lit "statute", lit "court",
    lit "litigation", lit "lawsuit", lit "contract", lit "agreement",
    lit "tax", lit "irs", lit "ftb", lit "franchise tax",
    lit "employment law", lit "intellectual property", lit "patent",
    lit "trademark", lit "copyright"]

/-- The keyword count of `LegalCrawler.is_legal_content`: how many
vocabulary entries occur in the lowercased content. -/
def keywordMatches (content : Str) : Nat :=
  (legalKeywords.filter (fun k => strHas (pyLower content) k)).length

/-- `LegalCrawler.is_legal_content`: at least 3 legal keywords. -/
def isLegalContent (content : Str) : Bool :=
  decide (3 ≤ keywordMatches content)

/-- `LegalCrawler.extract_jurisdiction`: hostname substring rules
first, then content substring rules, else `"Unknown"`. -/
def extractJurisdiction (url content : Str) : Str :=
  let domain := pyLower (netloc url)
  if strHas domain (lit ".ca.gov") then lit "California, USA"
  else if strHas domain (lit ".state.us") then
    pyTitle ((domain.splitOn '.').headD []) ++ lit ", USA"
  else if strHas domain (lit ".gov") then lit "Federal, USA"
  else
    let contentLower := pyLower content
    if strHas contentLower (lit "california") then lit "California, USA"
    else if strHas contentLower (lit "new york") then lit "New York, USA"
    else if strHas contentLower (lit "texas") then lit "Texas, USA"
    else lit "Unknown"

/-- `LegalCrawler.determine_authority_level`. -/
def determineAuthorityLevel (sourceType : Str) : Str :=
  if sourceType = lit "government" then lit "high"
  else if sourceType = lit "court" then lit "high"
  else if sourceType = lit "legal_portal" then lit "medium"
  else lit "low"

/-- The outcome of fetching a URL, as seen by `crawl_url`: an HTTP
response with a status and body, or one of the non-fatal transport
failures (aiohttp timeout, connection error, Playwright render
timeout). -/
inductive FetchOutcome where
  | ok (status : Nat) (html : Str)
  | timeout
  | connectionError
  | renderTimeout
  deriving Repr, DecidableEq

/-- A fetch outcome the spec calls a failure: a non-2xx/non-200 status
or a raised transport error. -/
def FetchFailure : FetchOutcome → Prop
  | .ok status _ => status ≠ 200
  | _ => True

instance : DecidablePred FetchFailure := by
  intro o
  cases o <;> simp only [FetchFailure] <;> infer_instance

/-- The crawler's external collaborators: BeautifulSoup content
cleaning and title/link extraction, the md5 hex digest, and the
network fetch (aiohttp or Playwright). -/
structure CrawlEnv where
  clean : Str → Str
  titleOf : Str → Option Str
  rawLinks : Str → Str → List Str
  digest : Str → Str

/-- `LegalSource` (`legal_crawler.py`).  `last_crawled`
(a wall-clock timestamp) and the soup-derived metadata mapping are
environment-dependent and not used by any claim; they are omitted. -/
structure LegalSource where
  url : Str
  title : Str
  content : Str
  source_type : Str
  jurisdiction : Str
  authority_level : Str
  content_hash : Str
  deriving Repr, DecidableEq

/-- `LegalCrawler.process_html`: clean the HTML, reject unless the
content is legal-related, otherwise build the `LegalSource`. -/
def processHtml (env : CrawlEnv) (url html : Str) : Option LegalSource :=
  let content := env.clean html
  if isLegalContent content then
    let sourceType := (isLegalDomain url).getD (lit "other")
    some {
      url := url
      title := match env.titleOf html with
        | some t => pyStrip t
        | none => pathOf url
      content := content
      source_type := sourceType
      jurisdiction := extractJurisdiction url content
      authority_level := determineAuthorityLevel sourceType
      content_hash := env.digest content }
  else none

/-- `LegalCrawler.crawl_url` (via `crawl_with_aiohttp`): a non-200
status or any raised transport error yields no source; the
rate-limiting sleep does not affect the value. -/
def crawlUrl (env : CrawlEnv) (fetch : Str → FetchOutcome) (url : Str) :
    Option LegalSource :=
  match fetch url with
  | .ok status html =>
    if status = 200 then processHtml env url html else none
  | .timeout => none
  | .connectionError => none
  | .renderTimeout => none

/-- `LegalCrawler.extract_links_from_content`: the hrefs harvested by
BeautifulSoup (external), kept only when they are legal domains. -/
def extractLinksFromContent (env : CrawlEnv) (content baseUrl : Str) :
    List Str :=
  (env.rawLinks content baseUrl).filter (fun u => (isLegalDomain u).isSome)

/-- The mutable state of `discover_legal_sources`: the pending
`urls_to_crawl` queue, the `crawled_urls` visited set, the accumulated
`discovered_sources`, and `crawled_count`.  `linkLog` is a ghost log
of the URLs enqueued as discovered links, in order. -/
structure CrawlState where
  pending : List Str
  visited : List Str
  sources : List LegalSource
  count : Nat
  linkLog : List Str
  deriving Repr, DecidableEq

/-- `max_urls` of `discover_legal_sources`. -/
def maxUrls : Nat := 100

/-- The inner `for new_url in new_urls` loop: enqueue a discovered URL
when it is not yet visited and the pending queue is under its cap of
50, marking it visited at enqueue time. -/
def enqueueLinks (links : List Str) (st : CrawlState) : CrawlState :=
  links.foldl
    (fun st u =>
      if u ∉ st.visited ∧ st.pending.length < 50 then
        { st with
          pending := st.pending ++ [u]
          visited := st.visited ++ [u]
          linkLog := st.linkLog ++ [u] }
      else st)
    st

/-- The body of the `for result in results` loop: an accepted
`LegalSource` is appended and counted, and (while the count is still
below `max_urls`) its in-domain legal links are enqueued; a `None`
result is skipped. -/
def processResult (env : CrawlEnv) (r : Option LegalSource)
    (st : CrawlState) : CrawlState :=
  match r with
  | none => st
  | some src =>
    let st1 := { st with
      sources := st.sources ++ [src], count := st.count + 1 }
    if st1.count < maxUrls then
      enqueueLinks (extractLinksFromContent env src.content src.url) st1
    else st1

/-- The `while urls_to_crawl and crawled_count < max_urls` loop of
`discover_legal_sources`, with an explicit fuel bound (`none` means
the fuel ran out before the loop terminated). -/
def discoverLoop (env : CrawlEnv) (fetch : Str → FetchOutcome) :
    Nat → CrawlState → Option CrawlState
  | 0, _ => none
  | fuel + 1, st =>
    if st.pending = [] ∨ ¬ st.count < maxUrls then some st
    else
      let batch := st.pending.take 10
      let st1 := { st with pending := st.pending.drop 10 }
      let results := batch.map (crawlUrl env fetch)
      let st2 := results.foldl (fun s r => processResult env r s) st1
      discoverLoop env fetch fuel st2

/-- The initial state of a run of `discover_legal_sources` on a fresh
crawler: the seeds are copied into the pending queue without being
marked visited. -/
def initState (seeds : List Str) : CrawlState :=
  { pending := seeds, visited := [], sources := [], count := 0, linkLog := [] }

/-- `LegalCrawler.discover_legal_sources` on a fresh crawler, with the
full final state exposed. -/
def discoverRun (env : CrawlEnv) (fetch : Str → FetchOutcome)
    (fuel : Nat) (seeds : List Str) : Option CrawlState :=
  discoverLoop env fetch fuel (initState seeds)

/-- The return value of `discover_legal_sources`. -/
def discoverLegalSources (env : CrawlEnv) (fetch : Str → FetchOutcome)
    (fuel : Nat) (seeds : List Str) : Option (List LegalSource) :=
  (discoverRun env fetch fuel seeds).map (fun st => st.sources)

lemma processHtml_isSome (env : CrawlEnv) (url html : Str) :
    (processHtml env url html).isSome = isLegalContent (env.clean html) := by
  by_cases h : isLegalContent (env.clean html) <;> simp [processHtml, h]

/-- C2: the legal-keyword vocabulary has no duplicate entries, and
`process_html` produces a `LegalSource` exactly when at least 3
(distinct) vocabulary keywords occur as case-insensitive substrings of
the cleaned content — for every URL, raw HTML, and every behaviour of
the external HTML cleaner. -/
theorem processHtml_iff_three_keywords (env : CrawlEnv) (url html : Str) :
    legalKeywords.Nodup ∧
    ((processHtml env url html).isSome ↔
      3 ≤ keywordMatches (env.clean html)) := by
  refine ⟨by decide, ?_⟩
  rw [processHtml_isSome]
  simp [isLegalContent]

/-- The content-search stage of the claim's priority chain. -/
def claimContentJurisdiction (content : Str) : Str :=
  let contentLower := pyLower content
  if strHas contentLower (lit "california") then lit "California, USA"
  else if strHas contentLower (lit "new york") then lit "New York, USA"
  else if strHas contentLower (lit "texas") then lit "Texas, USA"
  else lit "Unknown"

/-- Modelled from the claim's words, for comparison with the code's
`extract_jurisdiction`: hostname **suffix** rules first (a `.ca.gov`
suffix, a generic `.gov` suffix, a `state.<code>.us`-style suffix with
the code as the state label), then substring search in the content,
else `"Unknown"`. -/
def claimJurisdiction (url content : Str) : Str :=
  let domain := pyLower (netloc url)
  if (lit ".ca.gov").isSuffixOf domain then lit "California, USA"
  else if (lit ".gov").isSuffixOf domain then lit "Federal, USA"
  else
    match (domain.splitOn '.').reverse with
    | us :: code :: st :: _ =>
      if us = lit "us" ∧ st = lit "state" then pyTitle code ++ lit ", USA"
      else claimContentJurisdiction content
    | _ => claimContentJurisdiction content

/-- C7 (counterexample): the code tests hostname rules by *substring*,
not suffix.  For `http://www.ca.gov.example.com/page` (hostname merely
contains `.ca.gov`) with content mentioning Texas, the claimed
suffix-priority chain yields "Texas, USA" while the code returns
"California, USA". -/
theorem extractJurisdiction_claim_false :
    extractJurisdiction (lit "http://www.ca.gov.example.com/page")
        (lit "About Texas law") = lit "California, USA" ∧
    claimJurisdiction (lit "http://www.ca.gov.example.com/page")
        (lit "About Texas law") = lit "Texas, USA" := by
  constructor <;> decide

/-- C7 (amended): jurisdiction derivation follows the priority chain
with hostname **substring** tests: a hostname containing `.ca.gov`
gives "California, USA"; else one containing `.state.us` gives the
title-cased *first hostname label* + ", USA"; else one containing
`.gov` gives "Federal, USA"; only if no hostname rule applies,
substring search for the known state names in the lowercased content;
only if that also fails, "Unknown". -/
theorem extractJurisdiction_chain_amended (url content : Str) :
    (strHas (pyLower (netloc url)) (lit ".ca.gov") = true →
      extractJurisdiction url content = lit "California, USA") ∧
    (strHas (pyLower (netloc url)) (lit ".ca.gov") = false →
      strHas (pyLower (netloc url)) (lit ".state.us") = true →
      extractJurisdiction url content
        = pyTitle (((pyLower (netloc url)).splitOn '.').headD [])
            ++ lit ", USA") ∧
    (strHas (pyLower (netloc url)) (lit ".ca.gov") = false →
      strHas (pyLower (netloc url)) (lit ".state.us") = false →
      strHas (pyLower (netloc url)) (lit ".gov") = true →
      extractJurisdiction url content = lit "Federal, USA") ∧
    (strHas (pyLower (netloc url)) (lit ".ca.gov") = false →
      strHas (pyLower (netloc url)) (lit ".state.us") = false →
      strHas (pyLower (netloc url)) (lit ".gov") = false →
      strHas (pyLower content) (lit "california") = true →
      extractJurisdiction url content = lit "California, USA") ∧
    (strHas (pyLower (netloc url)) (lit ".ca.gov") = false →
      strHas (pyLower (netloc url)) (lit ".state.us") = false →
      strHas (pyLower (netloc url)) (lit ".gov") = false →
      strHas (pyLower content) (lit "california") = false →
      strHas (pyLower content) (lit "new york") = true →
      extractJurisdiction url content = lit "New York, USA") ∧
    (strHas (pyLower (netloc url)) (lit ".ca.gov") = false →
      strHas (pyLower (netloc url)) (lit ".state.us") = false →
      strHas (pyLower (netloc url)) (lit ".gov") = false →
      strHas (pyLower content) (lit "california") = false →
      strHas (pyLower content) (lit "new york") = false →
      strHas (pyLower content) (lit "texas") = true →
      extractJurisdiction url content = lit "Texas, USA") ∧
    (strHas (pyLower (netloc url)) (lit ".ca.gov") = false →
      strHas (pyLower (netloc url)) (lit ".state.us") = false →
      strHas (pyLower (netloc url)) (lit ".gov") = false →
      strHas (pyLower content) (lit "california") = false →
      strHas (pyLower content) (lit "new york") = false →
      strHas (pyLower content) (lit "texas") = false →
      extractJurisdiction url content = lit "Unknown") := by
  refine ⟨fun h1 => ?_, fun h1 h2 => ?_, fun h1 h2 h3 => ?_,
    fun h1 h2 h3 h4 => ?_, fun h1 h2 h3 h4 h5 => ?_,
    fun h1 h2 h3 h4 h5 h6 => ?_, fun h1 h2 h3 h4 h5 h6 => ?_⟩ <;>
    simp [extractJurisdiction, *]

/-- Witness for the amended C7 chain: a `.ca.gov`-containing hostname
yields "California, USA". -/
theorem extractJurisdiction_chain_amended_witness :
    extractJurisdiction (lit "http://www.sos.ca.gov/biz") []
      = lit "California, USA" :=
  (extractJurisdiction_chain_amended (lit "http://www.sos.ca.gov/biz") []).1
    (by decide)

lemma enqueueLinks_sources_count (links : List Str) :
    ∀ st : CrawlState, (enqueueLinks links st).sources = st.sources ∧
      (enqueueLinks links st).count = st.count := by
  induction links with
  | nil => intro st; exact ⟨rfl, rfl⟩
  | cons l ls ih =>
    intro st
    show (enqueueLinks ls _).sources = st.sources ∧
      (enqueueLinks ls _).count = st.count
    by_cases hc : l ∉ st.visited ∧ st.pending.length < 50
    · simp only [enqueueLinks, List.foldl_cons, if_pos hc]
      exact ih _
    · simp only [enqueueLinks, List.foldl_cons, if_neg hc]
      exact ih st

/-- Folding a batch of results grows `sources` by an appended tail and
`count` by that tail's length, which is at most the batch length. -/
lemma foldl_processResult_growth (env : CrawlEnv)
    (results : List (Option LegalSource)) :
    ∀ st : CrawlState,
      ∃ tl : List LegalSource, tl.length ≤ results.length ∧
        (results.foldl (fun s r => processResult env r s) st).sources
          = st.sources ++ tl ∧
        (results.foldl (fun s r => processResult env r s) st).count
          = st.count + tl.length := by
  induction results with
  | nil => intro st; exact ⟨[], by simp⟩
  | cons r rest ih =>
    intro st
    rw [List.foldl_cons]
    match r with
    | none =>
      obtain ⟨tl, hlen, hsrc, hcount⟩ := ih st
      exact ⟨tl, le_trans hlen (by simp), hsrc, hcount⟩
    | some src =>
      have hstep : (processResult env (some src) st).sources
            = st.sources ++ [src] ∧
          (processResult env (some src) st).count = st.count + 1 := by
        simp only [processResult]
        split
        · exact enqueueLinks_sources_count _ _
        · exact ⟨rfl, rfl⟩
      obtain ⟨tl, hlen, hsrc, hcount⟩ := ih (processResult env (some src) st)
      refine ⟨src :: tl, by simp; omega, ?_, ?_⟩
      · rw [hsrc, hstep.1, List.append_assoc]
        rfl
      · rw [hcount, hstep.2]
        simp
        omega

/-- C5 (amended): on termination the number of accepted `LegalSource`
records is at most `max_urls + batch_size - 1 = 109` (a final batch
entered with count 99 may still accept all 10 of its URLs); the
accepted list only ever grows (the final sources extend the sources of
any intermediate state); and the loop dispatches no further batch once
the accepted count is no longer below `max_urls`. -/
theorem discover_count_bound_amended (env : CrawlEnv)
    (fetch : Str → FetchOutcome) (fuel : Nat) :
    ∀ st out : CrawlState, st.count = st.sources.length →
      st.count ≤ maxUrls + 9 →
      discoverLoop env fetch fuel st = some out →
      out.sources.length ≤ maxUrls + 9 ∧
      (∃ tl, out.sources = st.sources ++ tl) ∧
      (¬ st.count < maxUrls → out = st) := by
  induction fuel with
  | zero => intro st out _ _ h; exact absurd h (by simp [discoverLoop])
  | succ n ih =>
    intro st out hcs hbound hrun
    rw [discoverLoop] at hrun
    by_cases hstop : st.pending = [] ∨ ¬ st.count < maxUrls
    · rw [if_pos hstop] at hrun
      obtain rfl : st = out := Option.some.inj hrun
      exact ⟨by omega, ⟨[], by simp⟩, fun _ => rfl⟩
    · rw [if_neg hstop] at hrun
      have hlt : st.count < maxUrls := by
        rcases not_or.mp hstop with ⟨_, h2⟩
        exact not_not.mp h2
      obtain ⟨tl, hlen, hsrc, hcount⟩ :=
        foldl_processResult_growth env
          ((st.pending.take 10).map (crawlUrl env fetch))
          { st with pending := st.pending.drop 10 }
      set st2 := ((st.pending.take 10).map (crawlUrl env fetch)).foldl
        (fun s r => processResult env r s)
        { st with pending := st.pending.drop 10 } with hst2
      have hbatch : ((st.pending.take 10).map (crawlUrl env fetch)).length ≤ 10 := by
        rw [List.length_map, List.length_take]
        omega
      have hcs2 : st2.count = st2.sources.length := by
        rw [hcount, hsrc]
        simp [hcs]
      have hbound2 : st2.count ≤ maxUrls + 9 := by
        rw [hcount]
        simp only [maxUrls] at hlt ⊢
        omega
      obtain ⟨hb, ⟨tl2, htl2⟩, _⟩ := ih st2 out hcs2 hbound2 hrun
      refine ⟨hb, ⟨tl ++ tl2, ?_⟩, fun hc => absurd hlt hc⟩
      rw [htl2, hsrc]
      simp [List.append_assoc]

/-- A concrete environment for witnesses: identity cleaner, no title,
no links, empty digest. -/
def env0 : CrawlEnv :=
  { clean := id, titleOf := fun _ => none, rawLinks := fun _ _ => [],
    digest := fun _ => [] }

/-- A concrete fetch for witnesses: every URL times out. -/
def fetch0 : Str → FetchOutcome := fun _ => FetchOutcome.timeout

/-- Witness for the amended C5 bound at the trivial terminating run on
an empty seed list. -/
theorem discover_count_bound_amended_witness :
    (initState []).sources.length ≤ maxUrls + 9 ∧
    (∃ tl, (initState []).sources = (initState []).sources ++ tl) ∧
    (¬ (initState []).count < maxUrls → initState ([] : List Str) = initState []) :=
  discover_count_bound_amended env0 fetch0 1 (initState []) (initState [])
    rfl (by decide) (by decide)

/-- The 110 seed URLs `u0`, ..., `u109` of the C5 counterexample. -/
def cxSeeds : List Str := (List.range 110).map (fun i => lit ("u" ++ toString i))

/-- The 9 URLs of the first batch whose pages are not legal content. -/
def cxRejects : List Str :=
  (List.range 9).map (fun i => lit ("u" ++ toString (i + 1)))

/-- The C5 counterexample fetch: `u1`..`u9` return non-legal pages,
every other URL returns a page with 3 legal keywords. -/
def cxFetch : Str → FetchOutcome := fun u =>
  if u ∈ cxRejects then FetchOutcome.ok 200 []
  else FetchOutcome.ok 200 (lit "llc tax court")

set_option maxRecDepth 100000 in
/-- C5 (counterexample): the per-result loop does not stop at
`max_urls` inside a batch.  With 110 seeds where the first batch
accepts 1 URL and the remaining ten batches accept 10 each, the loop
is still entered at count 91 and finishes with 101 accepted sources —
more than `max_urls = 100`. -/
theorem discover_count_claim_false :
    (discoverLegalSources env0 cxFetch 20 cxSeeds).map (fun l => l.length)
        = some 101 ∧
    ¬ 101 ≤ maxUrls := by
  constructor
  · rfl
  · decide

lemma enqueueLinks_loginv (links : List Str) :
    ∀ st : CrawlState, st.linkLog.Nodup →
      (∀ u ∈ st.linkLog, u ∈ st.visited) →
      (enqueueLinks links st).linkLog.Nodup ∧
        ∀ u ∈ (enqueueLinks links st).linkLog,
          u ∈ (enqueueLinks links st).visited := by
  induction links with
  | nil => intro st hnd hsub; exact ⟨hnd, hsub⟩
  | cons l ls ih =>
    intro st hnd hsub
    simp only [enqueueLinks, List.foldl_cons]
    by_cases hc : l ∉ st.visited ∧ st.pending.length < 50
    · rw [if_pos hc]
      refine ih _ ?_ ?_
      · show (st.linkLog ++ [l]).Nodup
        rw [List.nodup_append]
        refine ⟨hnd, List.nodup_singleton l, ?_⟩
        intro v hv hvl
        rw [List.mem_singleton] at hvl
        subst hvl
        exact hc.1 (hsub v hv)
      · show ∀ u ∈ st.linkLog ++ [l], u ∈ st.visited ++ [l]
        intro v hv
        rcases List.mem_append.mp hv with h | h
        · exact List.mem_append_left _ (hsub v h)
        · exact List.mem_append_right _ h
    · rw [if_neg hc]
      exact ih st hnd hsub

lemma foldl_processResult_loginv (env : CrawlEnv)
    (results : List (Option LegalSource)) :
    ∀ st : CrawlState, st.linkLog.Nodup →
      (∀ u ∈ st.linkLog, u ∈ st.visited) →
      (results.foldl (fun s r => processResult env r s) st).linkLog.Nodup ∧
        ∀ u ∈ (results.foldl (fun s r => processResult env r s) st).linkLog,
          u ∈ (results.foldl (fun s r => processResult env r s) st).visited := by
  induction results with
  | nil => intro st hnd hsub; exact ⟨hnd, hsub⟩
  | cons r rest ih =>
    intro st hnd hsub
    rw [List.foldl_cons]
    match r with
    | none => exact ih st hnd hsub
    | some src =>
      simp only [processResult]
      split
      · obtain ⟨h1, h2⟩ := enqueueLinks_loginv
          (extractLinksFromContent env src.content src.url)
          { st with sources := st.sources ++ [src], count := st.count + 1 }
          hnd hsub
        exact ih _ h1 h2
      · exact ih _ hnd hsub

/-- C6 (amended): discovered-link enqueues are deduplicated — every
URL enqueued as a discovered link is checked against the visited set
and marked visited at enqueue time, so the link-enqueue log of a run
is duplicate-free and contained in the visited set.  (Seed URLs,
however, are placed in the queue without being marked visited, so a
seed can be re-enqueued once as a discovered link; see the
counterexample.) -/
theorem discover_linkLog_nodup_amended (env : CrawlEnv)
    (fetch : Str → FetchOutcome) (fuel : Nat) :
    ∀ st out : CrawlState, st.linkLog.Nodup →
      (∀ u ∈ st.linkLog, u ∈ st.visited) →
      discoverLoop env fetch fuel st = some out →
      out.linkLog.Nodup ∧ ∀ u ∈ out.linkLog, u ∈ out.visited := by
  induction fuel with
  | zero => intro st out _ _ h; exact absurd h (by simp [discoverLoop])
  | succ n ih =>
    intro st out hnd hsub hrun
    rw [discoverLoop] at hrun
    by_cases hstop : st.pending = [] ∨ ¬ st.count < maxUrls
    · rw [if_pos hstop] at hrun
      obtain rfl : st = out := Option.some.inj hrun
      exact ⟨hnd, hsub⟩
    · rw [if_neg hstop] at hrun
      obtain ⟨hnd2, hsub2⟩ :=
        foldl_processResult_loginv env
          ((st.pending.take 10).map (crawlUrl env fetch))
          { st with pending := st.pending.drop 10 } hnd hsub
      exact ih _ out hnd2 hsub2 hrun

/-- Witness for the amended C6 invariant at the trivial terminating
run on an empty seed list. -/
theorem discover_linkLog_nodup_amended_witness :
    (initState []).linkLog.Nodup ∧
    ∀ u ∈ (initState ([] : List Str)).linkLog, u ∈ (initState []).visited :=
  discover_linkLog_nodup_amended env0 fetch0 1 (initState []) (initState [])
    (by decide) (by decide) (by decide)

/-- The C6 counterexample environment: every crawled page carries 3
legal keywords and links back to `http://a.gov/`. -/
def cx6Env : CrawlEnv :=
  { clean := id, titleOf := fun _ => none,
    rawLinks := fun _ _ => [lit "http://a.gov/"], digest := fun _ => [] }

/-- The C6 counterexample fetch: every URL succeeds. -/
def cx6Fetch : Str → FetchOutcome :=
  fun _ => FetchOutcome.ok 200 (lit "llc tax court")

/-- C6 (counterexample): seed URLs are never marked visited, so a seed
can be re-enqueued as a discovered link.  Seeding `http://a.gov/`
whose page links back to itself, the complete enqueue log of the run
(seeds followed by the discovered-link enqueues) contains the URL
twice — it is crawled and accepted twice. -/
theorem discover_enqueue_twice_claim_false :
    (discoverRun cx6Env cx6Fetch 5 [lit "http://a.gov/"]).map
        (fun out => [lit "http://a.gov/"] ++ out.linkLog)
      = some [lit "http://a.gov/", lit "http://a.gov/"] ∧
    ¬ ([lit "http://a.gov/", lit "http://a.gov/"] : List Str).Nodup := by
  constructor
  · rfl
  · decide

/-- Runs whose fetches produce, URL by URL, the same `crawl_url`
results are identical. -/
lemma discoverLoop_fetch_congr (env : CrawlEnv)
    (f g : Str → FetchOutcome)
    (hfg : ∀ u, crawlUrl env f u = crawlUrl env g u) :
    ∀ (fuel : Nat) (st : CrawlState),
      discoverLoop env f fuel st = discoverLoop env g fuel st := by
  intro fuel
  induction fuel with
  | zero => intro st; rfl
  | succ n ih =>
    intro st
    rw [discoverLoop, discoverLoop]
    by_cases hstop : st.pending = [] ∨ ¬ st.count < maxUrls
    · rw [if_pos hstop, if_pos hstop]
    · rw [if_neg hstop, if_neg hstop]
      have hmap : (st.pending.take 10).map (crawlUrl env f)
          = (st.pending.take 10).map (crawlUrl env g) :=
        List.map_congr_left (fun u _ => hfg u)
      show discoverLoop env f n
          (((st.pending.take 10).map (crawlUrl env f)).foldl
            (fun s r => processResult env r s)
            { st with pending := st.pending.drop 10 })
        = discoverLoop env g n
          (((st.pending.take 10).map (crawlUrl env g)).foldl
            (fun s r => processResult env r s)
            { st with pending := st.pending.drop 10 })
      rw [hmap]
      exact ih _

/-- C8: a fetch failure (timeout, non-200 status, connection error, or
render timeout) for a URL yields no `LegalSource` for it, and turning
any URL that produced no source into a failing URL leaves the whole
crawl run — every other URL of every batch — unchanged. -/
theorem crawl_failure_yields_none_and_preserves_run (env : CrawlEnv)
    (fetch : Str → FetchOutcome) (u : Str) (f : FetchOutcome)
    (fuel : Nat) (st : CrawlState) (hf : FetchFailure f)
    (hnone : crawlUrl env fetch u = none) :
    crawlUrl env (Function.update fetch u f) u = none ∧
    discoverLoop env (Function.update fetch u f) fuel st
      = discoverLoop env fetch fuel st := by
  have h1 : crawlUrl env (Function.update fetch u f) u = none := by
    unfold crawlUrl
    rw [Function.update_same]
    cases f with
    | ok s html =>
      simp only [FetchFailure] at hf
      simp [hf]
    | timeout => rfl
    | connectionError => rfl
    | renderTimeout => rfl
  refine ⟨h1, discoverLoop_fetch_congr env _ _ (fun v => ?_) fuel st⟩
  by_cases hv : v = u
  · subst hv
    rw [h1, hnone]
  · unfold crawlUrl
    rw [Function.update_noteq hv]

/-- Witness for C8: replacing the (already failing) fetch of `"u"` by
a timeout yields no source for it and an unchanged one-batch run. -/
theorem crawl_failure_yields_none_and_preserves_run_witness :
    crawlUrl env0 (Function.update fetch0 (lit "u") FetchOutcome.timeout)
        (lit "u") = none ∧
    discoverLoop env0 (Function.update fetch0 (lit "u") FetchOutcome.timeout)
        1 (initState [])
      = discoverLoop env0 fetch0 1 (initState []) :=
  crawl_failure_yields_none_and_preserves_run env0 fetch0 (lit "u")
    FetchOutcome.timeout 1 (initState []) True.intro rfl

end LegalAssistant
